import Mathlib

/-!
Shallow embedding of the bulk-operation engine of `wikijs-cli-rs`
(`src/lib.rs`): page listing with filtering and sorting, batch move
dispatch with tri-state transport/decode failure classification and
outcome reconciliation, and the privacy safety check.

Strings from the Rust code are modelled as lists of bytes (`List Nat`),
matching Rust's `String`/`str` semantics: `len`, slicing, `starts_with`,
`contains` and `Ord::cmp` all operate on UTF-8 bytes.
-/

/-- Byte-string model of a Rust `String`. -/
abbrev ByteStr := List Nat

/-- Model of `queries::ResponseStatus` from `src/lib.rs`: per-request outcome. -/
structure ResponseStatus where
  error_code : Int
  message : Option ByteStr
  slug : ByteStr
  succeeded : Bool
deriving DecidableEq

/-- Model of `queries::PageListItem` from `src/lib.rs`. -/
structure PageListItem where
  id : Int
  path : ByteStr
  tags : Option (List (Option ByteStr))
  title : Option ByteStr
deriving DecidableEq

/-- Model of `queries::DefaultResponse`: wrapper around `ResponseStatus`. -/
structure DefaultResponse where
  response_result : Option ResponseStatus
deriving DecidableEq

/-- Model of `queries::PageMutation`: the `move` field of a page mutation reply. -/
structure PageMutation where
  move_ : Option DefaultResponse
deriving DecidableEq

/-- Model of `queries::MoveSinglePage`: the decoded `data` payload of a move reply. -/
structure MoveSinglePage where
  pages : Option PageMutation
deriving DecidableEq

/-- Model of `queries::PageQuery`: the `pages` field of a list reply. -/
structure PageQuery where
  list : List PageListItem
deriving DecidableEq

/-- Model of `queries::ListAllPages`: the decoded `data` payload of a list reply. -/
structure ListAllPages where
  pages : Option PageQuery
deriving DecidableEq

/-- Model of `cynic::GraphQlResponse<ListAllPages>`: the envelope of a list reply. -/
structure GraphQlListResponse where
  data : Option ListAllPages
deriving DecidableEq

/-- Model of `ListPages` from `src/lib.rs`: the filtered working set plus the
count of pages the backend returned before local filtering. -/
structure ListPages where
  pages : List PageListItem
  pages_returned : Nat
deriving DecidableEq

/-- Model of `MoveSuccess` from `src/lib.rs`: the batch report. -/
structure MoveSuccess where
  success_count : Nat
  failures : Option (List ResponseStatus)
deriving DecidableEq

/-- Model of `queries::MoveSinglePageArguments`: one move operation descriptor. -/
structure MoveOp where
  id : Int
  destination_path : ByteStr
deriving DecidableEq

/-- The `anyhow::bail!` exits of `list_pages` and `move_pages`, named
after the spec's error taxonomy (§7).  `backendNoData` / `backendNoPages`
are the two `BackendContractError` shapes of `list_pages`;
`allRequestsFailed` / `someButNotAllRequestsFailed` are the transport
tri-state exits and `allDecodeFailed` / `someButNotAllDecodeFailed` the
JSON-decode tri-state exits of `move_pages` (the spec's
`AllRequestsFailed` and `PartialRequestFailure`). -/
inductive WikiError where
  | backendNoData
  | backendNoPages
  | allRequestsFailed
  | someButNotAllRequestsFailed
  | allDecodeFailed
  | someButNotAllDecodeFailed
deriving DecidableEq

/-- Rust `Ord::cmp` on `String` as a `≤` test: lexicographic byte order. -/
def pathLe : ByteStr → ByteStr → Bool
  | [], _ => true
  | _ :: _, [] => false
  | a :: as, b :: bs => if a < b then true else if b < a then false else pathLe as bs

/-- The comparator `Ord::cmp(&a.path, &b.path)` of `list_pages` as a
binary relation on pages. -/
def pageLe (a b : PageListItem) : Prop := pathLe a.path b.path = true

instance (a b : PageListItem) : Decidable (pageLe a b) :=
  instDecidableEqBool (pathLe a.path b.path) true

/-- One request's environment outcome in `move_pages`: the transport
result of `send()`, the result of `.json()` decoding, and the typed
`data` payload produced by `op.decode_response` — the three fallible
stages the code partitions on. -/
inductive ReqOutcome where
  | transportFail
  | decodeFail
  | decoded (data : Option MoveSinglePage)
deriving DecidableEq

/-- Test `r.is_ok()` on the raw `send()` result. -/
def isTransportOk : ReqOutcome → Bool
  | .transportFail => false
  | _ => true

/-- Test `r.is_ok()` on the `.json::<GraphQlResponse<Value>>()` result. -/
def isDecodeOk : ReqOutcome → Bool
  | .decoded _ => true
  | _ => false

/-- The typed `data` payload of a fully decoded outcome. -/
def getData : ReqOutcome → Option MoveSinglePage
  | .decoded d => d
  | _ => none

/-- The nested-match status extraction of `move_pages` (lines 339-348):
`data.pages.move_.response_result`, `none` as soon as a level is absent. -/
def extractStatus : Option MoveSinglePage → Option ResponseStatus
  | some t =>
    match t.pages with
    | some ptm =>
      match ptm.move_ with
      | some dr => dr.response_result
      | none => none
    | none => none
  | none => none

/-- The destination path computed for one page in `move_pages`:
`destination.to_owned() + &p.path[trim..]` with `trim = prefix.len()`. -/
def movedPath (pfx dst : ByteStr) (p : PageListItem) : ByteStr :=
  dst ++ p.path.drop pfx.length

/-- The operation list built by `move_pages` (lines 290-300): one
`MoveSinglePageArguments` per page. -/
def move_ops (pages : List PageListItem) (pfx dst : ByteStr) : List MoveOp :=
  pages.map (fun p => MoveOp.mk p.id (movedPath pfx dst p))

/-- Model of `Wiki::list_pages` (lines 244-278), with the network and JSON layers
abstracted into the already-decoded `GraphQlListResponse` argument:
unwrap the envelope (bailing on a missing `data` or `pages` field),
record the pre-filter count, filter by path byte-prefix, sort by path.
The source's `sorted_by(|a, b| Ord::cmp(&a.path, &b.path))` is a stable
ascending sort; it is modelled by the stable `List.insertionSort`, whose
output agrees with every stable sort under the same comparator. -/
def list_pages (resp : GraphQlListResponse) (pfx : ByteStr) :
    Except WikiError ListPages :=
  match resp.data with
  | none => .error .backendNoData
  | some lap =>
    match lap.pages with
    | none => .error .backendNoPages
    | some pq =>
      let page_list := pq.list
      let pages_returned := page_list.length
      let filtered_pages :=
        (page_list.filter (fun p => pfx.isPrefixOf p.path)).insertionSort pageLe
      .ok (ListPages.mk filtered_pages pages_returned)

/-- Model of `Wiki::move_pages` (lines 280-356), with the per-request network and
decode stages abstracted into `outcomes` (one `ReqOutcome` per dispatched
operation, in dispatch order, as `join_all` preserves order).  Rust's
`partition(|r| r.is_ok())` is order-preserving on both sides, so it is
modelled by the two complementary `filter`s.  The source's
`ok.zip(ops).filter_map(|(j, op)| op.decode_response(j) ... )` uses each
op only to decode its own response; the decode result is already the
`decoded` payload of the outcome, so the extraction reads it directly. -/
def move_pages (pages : List PageListItem) (pfx dst : ByteStr)
    (outcomes : List ReqOutcome) : Except WikiError MoveSuccess :=
  let _ops := move_ops pages pfx dst
  let tok := outcomes.filter isTransportOk
  let terr := outcomes.filter (fun o => !isTransportOk o)
  match terr.length with
  | _ + 1 =>
    match tok.length with
    | 0 => .error .allRequestsFailed
    | _ + 1 => .error .someButNotAllRequestsFailed
  | 0 =>
    let jok := tok.filter isDecodeOk
    let jerr := tok.filter (fun o => !isDecodeOk o)
    match jerr.length with
    | _ + 1 =>
      match jok.length with
      | 0 => .error .allDecodeFailed
      | _ + 1 => .error .someButNotAllDecodeFailed
    | 0 =>
      let statuses := jok.filterMap (fun o => extractStatus (getData o))
      let sok := statuses.filter (fun s => s.succeeded)
      let serr := statuses.filter (fun s => !s.succeeded)
      .ok (MoveSuccess.mk sok.length
        (match serr.length with | 0 => none | _ + 1 => some serr))

/-- A fully well-formed decoded outcome: every nested level of the move
reply is present down to its `ResponseStatus`. -/
def wrapStatus (s : ResponseStatus) : ReqOutcome :=
  .decoded (some (MoveSinglePage.mk (some (PageMutation.mk
    (some (DefaultResponse.mk (some s)))))))

/-- The bytes of the literal `"private"`. -/
def privateWord : ByteStr := [112, 114, 105, 118, 97, 116, 101]

/-- Rust `str::contains(needle)`: substring search over bytes. -/
def containsSub (hay needle : ByteStr) : Bool :=
  needle.isPrefixOf hay ||
    match hay with
    | [] => false
    | _ :: t => containsSub t needle

/-- The per-page privacy test of `safety_check_private` (lines 366-373):
the tag list contains the tag `"private"`, or the path contains the
substring `"private"` anywhere. -/
def isPrivatePage (p : PageListItem) : Bool :=
  let is_private_tag :=
    match p.tags with
    | some tags => tags.contains (some privateWord)
    | none => false
  let is_private_path := containsSub p.path privateWord
  is_private_tag || is_private_path

/-- Model of `Wiki::safety_check_private` (lines 360-380): filter to the private
pages, return `none` when the filtered iterator has no first element
(`peek().is_some()` false), otherwise the filtered pages. -/
def safety_check_private (pages : List PageListItem) :
    Option (List PageListItem) :=
  let private_pages := pages.filter isPrivatePage
  if private_pages.isEmpty then none else some private_pages

/-! ### Safety Tag Deriver (spec §4.3) -/

/-- Modelled from the spec: the Safety Tag Deriver of §4.3 has no
implementation under `src/` (the shipped tool has only the `list`,
`move` and `config` commands).  Its cryptographic digest is modelled as
a deterministic 256-bit (32-byte) mixing function over the input bytes,
wide enough that the base64 encoding reaches the fixed 32-character
truncation length of §4.3. -/
def digest (input : ByteStr) : ByteStr :=
  (List.range 32).map (fun i =>
    (input.foldl (fun h b => (h * 131 + b + i + 1) % 4294967296)
      (i + 2166136261)) % 256)

/-- Modelled from the spec: the URL-safe base64 alphabet, as ASCII codes
`A-Z`, `a-z`, `0-9`, `-`, `_`. -/
def b64Char (n : Nat) : Nat :=
  if n < 26 then 65 + n
  else if n < 52 then 97 + (n - 26)
  else if n < 62 then 48 + (n - 52)
  else if n = 62 then 45
  else 95

/-- Modelled from the spec: padding-free base64 encoding of a byte
sequence (each 3-byte group to 4 alphabet characters, a trailing 1- or
2-byte group to 2 or 3 characters, no `=` padding). -/
def b64Encode : ByteStr → ByteStr
  | [] => []
  | [a] => [b64Char (a / 4 % 64), b64Char (a % 4 * 16)]
  | [a, b] =>
    [b64Char (a / 4 % 64), b64Char (a % 4 * 16 + b / 16), b64Char (b % 16 * 4)]
  | a :: b :: c :: rest =>
    b64Char (a / 4 % 64) :: b64Char (a % 4 * 16 + b / 16) ::
      b64Char (b % 16 * 4 + c / 64) :: b64Char (c % 64) :: b64Encode rest

/-- Modelled from the spec: `derive(prefix, destination)` of §4.3 —
digest the concatenation of the two inputs (order matters, no
delimiter), base64url-encode without padding, truncate to 32 chars. -/
def derive (pfx dst : ByteStr) : ByteStr :=
  (b64Encode (digest (pfx ++ dst))).take 32

/-- Membership test for the URL-safe base64 alphabet. -/
def isB64UrlChar (c : Nat) : Bool :=
  (65 ≤ c && c ≤ 90) || (97 ≤ c && c ≤ 122) || (48 ≤ c && c ≤ 57) ||
    c = 45 || c = 95

/-! ### UTF-8 byte-level well-formedness (for the slice-safety claim) -/

/-- Length of a UTF-8 encoded scalar as a function of its lead byte;
`0` for bytes that cannot begin a character (continuation bytes
`0x80-0xBF` and the invalid leads `0xF8-0xFF`). -/
def chunkLen (b : Nat) : Nat :=
  if b < 128 then 1
  else if b < 192 then 0
  else if b < 224 then 2
  else if b < 240 then 3
  else if b < 248 then 4
  else 0

/-- UTF-8 continuation byte test (`0x80 ≤ b < 0xC0`), the byte class
whose presence at a slice boundary makes Rust's `str` indexing panic. -/
def isCont (b : Nat) : Bool := 128 ≤ b && b < 192

/-- Byte-level UTF-8 chunk structure: `k` is the number of continuation
bytes still owed to the current character. -/
def utf8ValidAux : Nat → ByteStr → Bool
  | 0, [] => true
  | _ + 1, [] => false
  | 0, b :: rest =>
    if chunkLen b = 0 then false else utf8ValidAux (chunkLen b - 1) rest
  | k + 1, b :: rest => isCont b && utf8ValidAux k rest

/-- A byte sequence is a concatenation of well-formed UTF-8 character
chunks (every Rust `String`'s byte representation satisfies this). -/
def utf8Valid (s : ByteStr) : Bool := utf8ValidAux 0 s

/-- Rust's `str::is_char_boundary(i)`: true at the end of the string,
false beyond it, and otherwise true iff the byte at `i` is not a
continuation byte. -/
def isCharBoundary (s : ByteStr) (i : Nat) : Bool :=
  match s.drop i with
  | [] => i == s.length
  | b :: _ => !isCont b

/-- Rust's panicking slice `&s[i..]` modelled as a checked operation:
`some` suffix when `i` is a char boundary, `none` for the panic. -/
def byteSlice (s : ByteStr) (i : Nat) : Option ByteStr :=
  if isCharBoundary s i then some (s.drop i) else none

/-- The destination-path computation of `move_pages` with its slice
`&p.path[trim..]` made explicit as the checked `byteSlice`. -/
def movedPathChecked (pfx dst : ByteStr) (p : PageListItem) : Option ByteStr :=
  (byteSlice p.path pfx.length).map (fun s => dst ++ s)

/-! ### Helper lemmas -/

instance {ε α : Type} [DecidableEq ε] [DecidableEq α] : DecidableEq (Except ε α)
  | .error e, .error f =>
    if h : e = f then .isTrue (by rw [h])
    else .isFalse (by intro hc; cases hc; exact h rfl)
  | .error _, .ok _ => .isFalse (by intro hc; cases hc)
  | .ok _, .error _ => .isFalse (by intro hc; cases hc)
  | .ok a, .ok b =>
    if h : a = b then .isTrue (by rw [h])
    else .isFalse (by intro hc; cases hc; exact h rfl)

theorem pathLe_total : ∀ x y : ByteStr, pathLe x y = true ∨ pathLe y x = true
  | [], _ => .inl rfl
  | _ :: _, [] => .inr rfl
  | a :: as, b :: bs => by
    simp only [pathLe]
    rcases Nat.lt_trichotomy a b with h | h | h
    · left; simp [h]
    · subst h
      rcases pathLe_total as bs with ht | ht <;> simp [ht]
    · right; simp [h, Nat.lt_asymm h]

theorem pathLe_trans :
    ∀ x y z : ByteStr, pathLe x y = true → pathLe y z = true → pathLe x z = true
  | [], _, _, _, _ => rfl
  | _ :: _, [], _, h, _ => by simp [pathLe] at h
  | _ :: _, _ :: _, [], _, h => by simp [pathLe] at h
  | a :: as, b :: bs, c :: cs, h₁, h₂ => by
    simp only [pathLe] at h₁ h₂ ⊢
    split_ifs at h₁ h₂ ⊢ <;>
      first
        | rfl
        | omega
        | exact pathLe_trans as bs cs h₁ h₂

instance : IsTotal PageListItem pageLe :=
  ⟨fun a b => pathLe_total a.path b.path⟩

instance : IsTrans PageListItem pageLe :=
  ⟨fun a b c => pathLe_trans a.path b.path c.path⟩

theorem filter_not_length (p : α → Bool) : ∀ l : List α,
    (l.filter p).length + (l.filter fun a => !p a).length = l.length
  | [] => rfl
  | a :: l => by
    by_cases h : p a <;>
      simp [List.filter_cons, h, ← filter_not_length p l] <;> omega

theorem isPrefixOf_iff_append :
    ∀ p t : ByteStr, p.isPrefixOf t = true ↔ ∃ u, t = p ++ u
  | [], t => by simp [List.isPrefixOf]
  | _ :: _, [] => by simp [List.isPrefixOf]
  | a :: as, b :: bs => by
    simp only [List.isPrefixOf, Bool.and_eq_true, beq_iff_eq]
    constructor
    · rintro ⟨rfl, h⟩
      obtain ⟨u, rfl⟩ := (isPrefixOf_iff_append as bs).mp h
      exact ⟨u, rfl⟩
    · rintro ⟨u, hu⟩
      injection hu with hb hbs
      subst hb
      exact ⟨rfl, (isPrefixOf_iff_append as bs).mpr ⟨u, hbs⟩⟩

theorem containsSub_iff : ∀ hay needle : ByteStr,
    containsSub hay needle = true ↔ ∃ u v, hay = u ++ needle ++ v
  | [], needle => by
    simp only [containsSub, Bool.or_false, isPrefixOf_iff_append]
    constructor
    · rintro ⟨u, hu⟩
      exact ⟨[], u, by simpa using hu⟩
    · rintro ⟨u, v, huv⟩
      have hn : needle = [] := by
        cases u <;> cases needle <;> simp_all
      exact ⟨[], by simp [hn]⟩
  | h :: t, needle => by
    simp only [containsSub, Bool.or_eq_true]
    rw [isPrefixOf_iff_append, containsSub_iff t needle]
    constructor
    · rintro (⟨u, hu⟩ | ⟨u, v, hu⟩)
      · exact ⟨[], u, by simpa using hu⟩
      · exact ⟨h :: u, v, by simp [hu]⟩
    · rintro ⟨u, v, he⟩
      cases u with
      | nil => exact .inl ⟨v, by simpa using he⟩
      | cons x xs =>
        injection he with hx hxs
        exact .inr ⟨xs, v, hxs⟩

/-! ### Claim theorems -/

/-- C3: for every page whose path the given prefix passes the
`starts_with` test, the computed destination path is `destination`
followed by the path with its first `len(prefix)` bytes removed, and
substituting the prefix back for the destination recovers the original
path exactly. -/
theorem c3_moved_path_round_trip (pfx dst : ByteStr) (pages : List PageListItem)
    (h : ∀ pg ∈ pages, pfx.isPrefixOf pg.path = true) :
    move_ops pages pfx dst =
      pages.map (fun pg => MoveOp.mk pg.id (dst ++ pg.path.drop pfx.length)) ∧
    ∀ pg ∈ pages, pfx ++ (movedPath pfx dst pg).drop dst.length = pg.path := by
  refine ⟨rfl, fun pg hm => ?_⟩
  obtain ⟨u, hu⟩ := (isPrefixOf_iff_append _ _).mp (h pg hm)
  simp only [movedPath, List.drop_left, hu, List.drop_left]

theorem c3_moved_path_round_trip_witness :
    (∀ pg ∈ [PageListItem.mk 1 [97, 98, 99] none none],
      ([97, 98] : ByteStr).isPrefixOf pg.path = true) ∧
    (move_ops [PageListItem.mk 1 [97, 98, 99] none none] [97, 98] [100] =
      [PageListItem.mk 1 [97, 98, 99] none none].map
        (fun pg => MoveOp.mk pg.id ([100] ++ pg.path.drop ([97, 98] : ByteStr).length)) ∧
      ∀ pg ∈ [PageListItem.mk 1 [97, 98, 99] none none],
        [97, 98] ++ (movedPath [97, 98] [100] pg).drop ([100] : ByteStr).length = pg.path) :=
  ⟨by decide,
    c3_moved_path_round_trip [97, 98] [100]
      [PageListItem.mk 1 [97, 98, 99] none none] (by decide)⟩

/-- C4: every successful `list_pages` working set is sorted ascending by
path, every element's path passes the `starts_with(prefix)` test, and
the same backend listing always yields the same ordered working set. -/
theorem c4_working_set_sorted (resp : GraphQlListResponse) (pfx : ByteStr)
    (lp : ListPages) (h : list_pages resp pfx = .ok lp) :
    List.Sorted pageLe lp.pages ∧
    (∀ p ∈ lp.pages, pfx.isPrefixOf p.path = true) ∧
    (∀ resp' : GraphQlListResponse, resp' = resp →
      list_pages resp' pfx = .ok lp) := by
  obtain ⟨ld⟩ := resp
  cases ld with
  | none => simp [list_pages] at h
  | some lap =>
    cases hpq : lap.pages with
    | none => simp [list_pages, hpq] at h
    | some pq =>
      simp only [list_pages, hpq] at h
      injection h with h
      subst h
      refine ⟨List.sorted_insertionSort pageLe _, ?_, ?_⟩
      · intro p hp
        rw [List.mem_insertionSort, List.mem_filter] at hp
        exact hp.2
      · rintro resp' rfl
        simp [list_pages, hpq]

theorem c4_working_set_sorted_witness :
    list_pages
        (GraphQlListResponse.mk (some (ListAllPages.mk (some (PageQuery.mk
          [PageListItem.mk 1 [97, 99] none none,
           PageListItem.mk 2 [98] none none,
           PageListItem.mk 3 [97, 98] none none]))))) [97] =
      .ok (ListPages.mk
        [PageListItem.mk 3 [97, 98] none none,
         PageListItem.mk 1 [97, 99] none none] 3) ∧
    (List.Sorted pageLe
        [PageListItem.mk 3 [97, 98] none none,
         PageListItem.mk 1 [97, 99] none none] ∧
      (∀ p ∈ [PageListItem.mk 3 [97, 98] none none,
              PageListItem.mk 1 [97, 99] none none],
        ([97] : ByteStr).isPrefixOf p.path = true) ∧
      (∀ resp' : GraphQlListResponse,
        resp' = GraphQlListResponse.mk (some (ListAllPages.mk (some (PageQuery.mk
          [PageListItem.mk 1 [97, 99] none none,
           PageListItem.mk 2 [98] none none,
           PageListItem.mk 3 [97, 98] none none])))) →
        list_pages resp' [97] =
          .ok (ListPages.mk
            [PageListItem.mk 3 [97, 98] none none,
             PageListItem.mk 1 [97, 99] none none] 3))) :=
  ⟨by decide,
    c4_working_set_sorted
      (GraphQlListResponse.mk (some (ListAllPages.mk (some (PageQuery.mk
        [PageListItem.mk 1 [97, 99] none none,
         PageListItem.mk 2 [98] none none,
         PageListItem.mk 3 [97, 98] none none])))))
      [97]
      (ListPages.mk
        [PageListItem.mk 3 [97, 98] none none,
         PageListItem.mk 1 [97, 99] none none] 3)
      (by decide)⟩

/-- C7: when the backend reply to the page listing is missing its `data`
payload or its `pages` list, `list_pages` fails with the corresponding
backend-contract error and returns no working set; no other error shape
exists and there is no retry path. -/
theorem c7_list_contract_error (resp : GraphQlListResponse) (pfx : ByteStr) :
    (resp.data = none → list_pages resp pfx = .error .backendNoData) ∧
    (∀ lap, resp.data = some lap → lap.pages = none →
      list_pages resp pfx = .error .backendNoPages) ∧
    (∀ e, list_pages resp pfx = .error e →
      (e = .backendNoData ∨ e = .backendNoPages) ∧
        ∀ lp, list_pages resp pfx ≠ .ok lp) := by
  obtain ⟨ld⟩ := resp
  cases ld with
  | none =>
    refine ⟨fun _ => rfl, ?_, ?_⟩
    · intro lap hl
      simp at hl
    · intro e he
      simp only [list_pages] at he
      injection he with he
      subst he
      exact ⟨.inl rfl, fun lp hc => by simp [list_pages] at hc⟩
  | some lap =>
    cases hpq : lap.pages with
    | none =>
      refine ⟨fun hc => by simp at hc, fun _ _ _ => by simp [list_pages, hpq], ?_⟩
      intro e he
      simp only [list_pages, hpq] at he
      injection he with he
      subst he
      exact ⟨.inr rfl, fun lp hc => by simp [list_pages, hpq] at hc⟩
    | some pq =>
      refine ⟨fun hc => by simp at hc, ?_, ?_⟩
      · intro lap' hl hp
        injection hl with hl
        subst hl
        rw [hpq] at hp
        cases hp
      · intro e he
        simp [list_pages, hpq] at he

theorem c7_list_contract_error_witness :
    (GraphQlListResponse.mk none).data = none ∧
    list_pages (GraphQlListResponse.mk none) [97] = .error .backendNoData :=
  ⟨rfl, (c7_list_contract_error (GraphQlListResponse.mk none) [97]).1 rfl⟩

/-- C8: a successful `list_pages` records `pages_returned` as the length
of the backend's page list before local prefix filtering, and the
filtered working set is never longer than it. -/
theorem c8_total_returned (resp : GraphQlListResponse) (pfx : ByteStr)
    (lp : ListPages) (h : list_pages resp pfx = .ok lp) :
    (∃ lap pq, resp.data = some lap ∧ lap.pages = some pq ∧
      lp.pages_returned = pq.list.length) ∧
    lp.pages.length ≤ lp.pages_returned := by
  obtain ⟨ld⟩ := resp
  cases ld with
  | none => simp [list_pages] at h
  | some lap =>
    cases hpq : lap.pages with
    | none => simp [list_pages, hpq] at h
    | some pq =>
      simp only [list_pages, hpq] at h
      injection h with h
      subst h
      refine ⟨⟨lap, pq, rfl, hpq, rfl⟩, ?_⟩
      show (List.insertionSort pageLe _).length ≤ pq.list.length
      rw [(List.perm_insertionSort pageLe _).length_eq]
      exact List.length_filter_le _ _

theorem c8_total_returned_witness :
    list_pages
        (GraphQlListResponse.mk (some (ListAllPages.mk (some (PageQuery.mk
          [PageListItem.mk 1 [98] none none,
           PageListItem.mk 2 [97] none none]))))) [97] =
      .ok (ListPages.mk [PageListItem.mk 2 [97] none none] 2) ∧
    ((∃ lap pq,
        (GraphQlListResponse.mk (some (ListAllPages.mk (some (PageQuery.mk
          [PageListItem.mk 1 [98] none none,
           PageListItem.mk 2 [97] none none]))))).data = some lap ∧
        lap.pages = some pq ∧
        (ListPages.mk [PageListItem.mk 2 [97] none none] 2).pages_returned =
          pq.list.length) ∧
      (ListPages.mk [PageListItem.mk 2 [97] none none] 2).pages.length ≤
        (ListPages.mk [PageListItem.mk 2 [97] none none] 2).pages_returned) :=
  ⟨by decide, c8_total_returned _ [97] _ (by decide)⟩

theorem filter_all_of_none_fail {α : Type} {p : α → Bool} {l : List α}
    (h : (l.filter fun a => !p a).length = 0) : l.filter p = l := by
  rw [List.filter_eq_self]
  intro a ha
  cases hpa : p a with
  | true => rfl
  | false =>
    exfalso
    have hm : a ∈ l.filter fun a => !p a := List.mem_filter.mpr ⟨ha, by simp [hpa]⟩
    rw [List.length_eq_zero.mp h] at hm
    cases hm

theorem isTransportOk_of_isDecodeOk {o : ReqOutcome} (h : isDecodeOk o = true) :
    isTransportOk o = true := by
  cases o <;> simp [isDecodeOk, isTransportOk] at *

/-- C1: the transport outcomes of a dispatched batch get the tri-state
treatment of `move_pages` lines 311-319 — zero transport failures
proceed, all-failed aborts with `AllRequestsFailed`, a mix aborts with
`PartialRequestFailure` — the decode outcomes of the transport successes
get the same tri-state treatment (lines 321-332), and every failing case
aborts the command without producing a batch report. -/
theorem c1_batch_tri_state (pages : List PageListItem) (pfx dst : ByteStr)
    (outcomes : List ReqOutcome) :
    ((outcomes.filter fun o => !isTransportOk o).length = 0 →
      (outcomes.filter fun o => !isDecodeOk o).length = 0 →
      ∃ r, move_pages pages pfx dst outcomes = .ok r) ∧
    (0 < outcomes.length →
      (outcomes.filter fun o => !isTransportOk o).length = outcomes.length →
      move_pages pages pfx dst outcomes = .error .allRequestsFailed) ∧
    (0 < (outcomes.filter fun o => !isTransportOk o).length →
      (outcomes.filter fun o => !isTransportOk o).length < outcomes.length →
      move_pages pages pfx dst outcomes = .error .someButNotAllRequestsFailed) ∧
    ((outcomes.filter fun o => !isTransportOk o).length = 0 →
      0 < outcomes.length →
      (outcomes.filter fun o => !isDecodeOk o).length = outcomes.length →
      move_pages pages pfx dst outcomes = .error .allDecodeFailed) ∧
    ((outcomes.filter fun o => !isTransportOk o).length = 0 →
      0 < (outcomes.filter fun o => !isDecodeOk o).length →
      (outcomes.filter fun o => !isDecodeOk o).length < outcomes.length →
      move_pages pages pfx dst outcomes = .error .someButNotAllDecodeFailed) ∧
    (∀ e, move_pages pages pfx dst outcomes = .error e →
      ∀ r, move_pages pages pfx dst outcomes ≠ .ok r) := by
  have hsum_t := filter_not_length isTransportOk outcomes
  have hsum_d := filter_not_length isDecodeOk outcomes
  refine ⟨?_, ?_, ?_, ?_, ?_, ?_⟩
  · intro h1 h2
    have htok := filter_all_of_none_fail h1
    simp only [move_pages, h1, htok, h2]
    exact ⟨_, rfl⟩
  · intro hn hall
    have h0 : (outcomes.filter isTransportOk).length = 0 := by omega
    obtain ⟨m, hm⟩ : ∃ m,
        (outcomes.filter fun o => !isTransportOk o).length = m + 1 :=
      ⟨outcomes.length - 1, by omega⟩
    simp only [move_pages, hm, h0]
  · intro hpos hlt
    obtain ⟨m, hm⟩ : ∃ m,
        (outcomes.filter fun o => !isTransportOk o).length = m + 1 :=
      ⟨(outcomes.filter fun o => !isTransportOk o).length - 1, by omega⟩
    obtain ⟨k, hk⟩ : ∃ k, (outcomes.filter isTransportOk).length = k + 1 :=
      ⟨(outcomes.filter isTransportOk).length - 1, by omega⟩
    simp only [move_pages, hm, hk]
  · intro h1 hn hall
    have htok := filter_all_of_none_fail h1
    have h0 : (outcomes.filter isDecodeOk).length = 0 := by omega
    obtain ⟨m, hm⟩ : ∃ m,
        (outcomes.filter fun o => !isDecodeOk o).length = m + 1 :=
      ⟨outcomes.length - 1, by omega⟩
    simp only [move_pages, h1, htok, hm, h0]
  · intro h1 hpos hlt
    have htok := filter_all_of_none_fail h1
    obtain ⟨m, hm⟩ : ∃ m,
        (outcomes.filter fun o => !isDecodeOk o).length = m + 1 :=
      ⟨(outcomes.filter fun o => !isDecodeOk o).length - 1, by omega⟩
    obtain ⟨k, hk⟩ : ∃ k, (outcomes.filter isDecodeOk).length = k + 1 :=
      ⟨(outcomes.filter isDecodeOk).length - 1, by omega⟩
    simp only [move_pages, h1, htok, hm, hk]
  · intro e he r hr
    rw [he] at hr
    exact Except.noConfusion hr

theorem c1_batch_tri_state_witness :
    0 < (([ReqOutcome.transportFail, ReqOutcome.decoded none].filter
        fun o => !isTransportOk o)).length ∧
    (([ReqOutcome.transportFail, ReqOutcome.decoded none].filter
        fun o => !isTransportOk o)).length <
      ([ReqOutcome.transportFail, ReqOutcome.decoded none] : List ReqOutcome).length ∧
    move_pages [] [] [] [ReqOutcome.transportFail, ReqOutcome.decoded none] =
      .error .someButNotAllRequestsFailed :=
  ⟨by decide, by decide,
    (c1_batch_tri_state [] [] [] [ReqOutcome.transportFail, ReqOutcome.decoded none]).2.2.1
      (by decide) (by decide)⟩

/-- C2: when every decoded response carries its nested response status,
the batch report counts exactly the `succeeded = true` statuses, lists
exactly the `succeeded = false` statuses (with their original fields) or
`none` when there are none, the success and failure counts add to N, and
per-page application failures never make `move_pages` return an error. -/
theorem c2_reconcile (pages : List PageListItem) (pfx dst : ByteStr)
    (ss : List ResponseStatus) :
    move_pages pages pfx dst (ss.map wrapStatus) =
      .ok (MoveSuccess.mk (ss.filter fun s => s.succeeded).length
        (match (ss.filter fun s => !s.succeeded).length with
          | 0 => none
          | _ + 1 => some (ss.filter fun s => !s.succeeded))) ∧
    (ss.filter fun s => s.succeeded).length +
        (ss.filter fun s => !s.succeeded).length = ss.length ∧
    ((∀ s ∈ ss, s.succeeded = true) →
      move_pages pages pfx dst (ss.map wrapStatus) =
        .ok (MoveSuccess.mk ss.length none)) := by
  have hmain : move_pages pages pfx dst (ss.map wrapStatus) =
      .ok (MoveSuccess.mk (ss.filter fun s => s.succeeded).length
        (match (ss.filter fun s => !s.succeeded).length with
          | 0 => none
          | _ + 1 => some (ss.filter fun s => !s.succeeded))) := by
    simp only [move_pages, List.filter_map, List.filterMap_map, Function.comp_def,
      wrapStatus, isTransportOk, isDecodeOk, getData, extractStatus,
      List.filter_false, List.filter_true, List.filterMap_some, List.length_nil,
      List.filter_map]
    simp [List.filter_map, Function.comp_def]
  refine ⟨hmain, filter_not_length _ ss, fun hall => ?_⟩
  rw [hmain]
  have h1 : (ss.filter fun s => s.succeeded) = ss :=
    List.filter_eq_self.mpr (fun s hs => by simp [hall s hs])
  have h2 : (ss.filter fun s => !s.succeeded) = [] :=
    List.filter_eq_nil_iff.mpr (fun s hs => by simp [hall s hs])
  rw [h1, h2]
  rfl

theorem c2_reconcile_witness :
    move_pages [] [] []
        ([ResponseStatus.mk 0 none [] true,
          ResponseStatus.mk 403 none [115] false,
          ResponseStatus.mk 0 none [] true].map wrapStatus) =
      .ok (MoveSuccess.mk 2 (some [ResponseStatus.mk 403 none [115] false])) ∧
    (∀ s ∈ [ResponseStatus.mk 0 none [] true], s.succeeded = true) ∧
    move_pages [] [] [] ([ResponseStatus.mk 0 none [] true].map wrapStatus) =
      .ok (MoveSuccess.mk 1 none) :=
  ⟨by
    have h := (c2_reconcile [] [] []
      [ResponseStatus.mk 0 none [] true,
       ResponseStatus.mk 403 none [115] false,
       ResponseStatus.mk 0 none [] true]).1
    simpa using h,
   by decide,
   (c2_reconcile [] [] [] [ResponseStatus.mk 0 none [] true]).2.2 (by decide)⟩

/-- C6: a decoded response whose nested status object is absent at any
level contributes to neither the success count nor the failure list —
inserting it anywhere into an otherwise fully decoded batch leaves the
batch report of `move_pages` unchanged. -/
theorem c6_statusless_dropped (pages : List PageListItem) (pfx dst : ByteStr)
    (l₁ l₂ : List ReqOutcome) (d : Option MoveSinglePage)
    (h₁ : ∀ o ∈ l₁, isDecodeOk o = true) (h₂ : ∀ o ∈ l₂, isDecodeOk o = true)
    (hd : extractStatus d = none) :
    move_pages pages pfx dst (l₁ ++ ReqOutcome.decoded d :: l₂) =
      move_pages pages pfx dst (l₁ ++ l₂) := by
  have hdk : ∀ o ∈ l₁ ++ ReqOutcome.decoded d :: l₂, isDecodeOk o = true := by
    intro o ho
    rcases List.mem_append.mp ho with h | h
    · exact h₁ o h
    · rcases List.mem_cons.mp h with rfl | h
      · rfl
      · exact h₂ o h
  have hdk' : ∀ o ∈ l₁ ++ l₂, isDecodeOk o = true := by
    intro o ho
    rcases List.mem_append.mp ho with h | h
    · exact h₁ o h
    · exact h₂ o h
  have e1 : ((l₁ ++ ReqOutcome.decoded d :: l₂).filter
      fun o => !isTransportOk o) = [] :=
    List.filter_eq_nil_iff.mpr (fun o ho => by
      simp [isTransportOk_of_isDecodeOk (hdk o ho)])
  have e2 : ((l₁ ++ l₂).filter fun o => !isTransportOk o) = [] :=
    List.filter_eq_nil_iff.mpr (fun o ho => by
      simp [isTransportOk_of_isDecodeOk (hdk' o ho)])
  have e3 : (l₁ ++ ReqOutcome.decoded d :: l₂).filter isTransportOk =
      l₁ ++ ReqOutcome.decoded d :: l₂ :=
    List.filter_eq_self.mpr (fun o ho => isTransportOk_of_isDecodeOk (hdk o ho))
  have e4 : (l₁ ++ l₂).filter isTransportOk = l₁ ++ l₂ :=
    List.filter_eq_self.mpr (fun o ho => isTransportOk_of_isDecodeOk (hdk' o ho))
  have e5 : ((l₁ ++ ReqOutcome.decoded d :: l₂).filter
      fun o => !isDecodeOk o) = [] :=
    List.filter_eq_nil_iff.mpr (fun o ho => by simp [hdk o ho])
  have e6 : ((l₁ ++ l₂).filter fun o => !isDecodeOk o) = [] :=
    List.filter_eq_nil_iff.mpr (fun o ho => by simp [hdk' o ho])
  have e7 : (l₁ ++ ReqOutcome.decoded d :: l₂).filter isDecodeOk =
      l₁ ++ ReqOutcome.decoded d :: l₂ :=
    List.filter_eq_self.mpr (fun o ho => hdk o ho)
  have e8 : (l₁ ++ l₂).filter isDecodeOk = l₁ ++ l₂ :=
    List.filter_eq_self.mpr (fun o ho => hdk' o ho)
  have hg : extractStatus (getData (ReqOutcome.decoded d)) = none := by
    simpa [getData] using hd
  simp only [move_pages, e1, e2, e3, e4, e5, e6, e7, e8, List.length_nil,
    List.filterMap_append, List.filterMap_cons, hg]

theorem c6_statusless_dropped_witness :
    (∀ o ∈ [wrapStatus (ResponseStatus.mk 0 none [] true)], isDecodeOk o = true) ∧
    extractStatus (some (MoveSinglePage.mk none)) = none ∧
    move_pages [] [] []
        ([wrapStatus (ResponseStatus.mk 0 none [] true)] ++
          ReqOutcome.decoded (some (MoveSinglePage.mk none)) :: []) =
      move_pages [] [] [] ([wrapStatus (ResponseStatus.mk 0 none [] true)] ++ []) :=
  ⟨by decide, by decide,
    c6_statusless_dropped [] [] [] [wrapStatus (ResponseStatus.mk 0 none [] true)] []
      (some (MoveSinglePage.mk none)) (by decide) (by decide) (by decide)⟩

/-- C5: a page is classified private iff its tag list contains the
literal tag `"private"` or its path contains the substring `"private"`
anywhere; the classifier returns the private pages as a subsequence in
original order, returns the distinct `none` signal exactly when no page
matches, and treats an absent tag list like an empty one. -/
theorem c5_privacy_classifier (pages : List PageListItem) :
    (∀ p : PageListItem, isPrivatePage p = true ↔
      ((∃ ts, p.tags = some ts ∧ some privateWord ∈ ts) ∨
        ∃ u v, p.path = u ++ privateWord ++ v)) ∧
    (safety_check_private pages = none ↔
      ∀ p ∈ pages, isPrivatePage p = false) ∧
    (∀ l, safety_check_private pages = some l →
      l = pages.filter isPrivatePage ∧ l.Sublist pages ∧ l ≠ []) ∧
    (∀ i path title, isPrivatePage (PageListItem.mk i path none title) =
      isPrivatePage (PageListItem.mk i path (some []) title)) := by
  refine ⟨?_, ?_, ?_, ?_⟩
  · intro p
    cases ht : p.tags with
    | none => simp [isPrivatePage, ht, containsSub_iff]
    | some ts =>
      simp [isPrivatePage, ht, containsSub_iff, List.contains, List.elem_iff]
  · constructor
    · intro h p hp
      cases he : (pages.filter isPrivatePage).isEmpty with
      | false => simp [safety_check_private, he] at h
      | true =>
        have hnil : pages.filter isPrivatePage = [] := by
          simpa [List.isEmpty_iff] using he
        have := List.filter_eq_nil_iff.mp hnil p hp
        simpa using this
    · intro h
      have hnil : pages.filter isPrivatePage = [] :=
        List.filter_eq_nil_iff.mpr (fun p hp => by simp [h p hp])
      simp [safety_check_private, hnil]
  · intro l hl
    cases he : (pages.filter isPrivatePage).isEmpty with
    | true => simp [safety_check_private, he] at hl
    | false =>
      simp only [safety_check_private, he, Bool.false_eq_true, if_false] at hl
      injection hl with hl
      subst hl
      refine ⟨rfl, List.filter_sublist _, ?_⟩
      intro hc
      rw [hc] at he
      simp [List.isEmpty] at he
  · intro i path title
    rfl

theorem c5_privacy_classifier_witness :
    safety_check_private [PageListItem.mk 1 privateWord none none] =
      some [PageListItem.mk 1 privateWord none none] ∧
    (([PageListItem.mk 1 privateWord none none] : List PageListItem) =
      [PageListItem.mk 1 privateWord none none].filter isPrivatePage ∧
      ([PageListItem.mk 1 privateWord none none] : List PageListItem).Sublist
        [PageListItem.mk 1 privateWord none none] ∧
      ([PageListItem.mk 1 privateWord none none] : List PageListItem) ≠ []) :=
  ⟨by decide,
    (c5_privacy_classifier [PageListItem.mk 1 privateWord none none]).2.2.1
      [PageListItem.mk 1 privateWord none none] (by decide)⟩

theorem digest_length (input : ByteStr) : (digest input).length = 32 := by
  simp [digest]

theorem b64Encode_length_ge : ∀ l : ByteStr, l.length ≤ (b64Encode l).length
  | [] => Nat.le_refl _
  | [_] => by simp [b64Encode]
  | [_, _] => by simp [b64Encode]
  | _ :: _ :: _ :: rest => by
    simp only [b64Encode, List.length_cons]
    have := b64Encode_length_ge rest
    omega

theorem b64Char_url (n : Nat) : isB64UrlChar (b64Char n) = true := by
  simp only [b64Char, isB64UrlChar]
  split_ifs <;> simp <;> omega

theorem b64Encode_chars : ∀ l : ByteStr, ∀ c ∈ b64Encode l, isB64UrlChar c = true
  | [] => by simp [b64Encode]
  | [_] => by
    intro c hc
    simp only [b64Encode, List.mem_cons, List.not_mem_nil, or_false] at hc
    rcases hc with rfl | rfl <;> exact b64Char_url _
  | [_, _] => by
    intro c hc
    simp only [b64Encode, List.mem_cons, List.not_mem_nil, or_false] at hc
    rcases hc with rfl | rfl | rfl <;> exact b64Char_url _
  | _ :: _ :: _ :: rest => by
    intro c hc
    simp only [b64Encode, List.mem_cons] at hc
    rcases hc with rfl | rfl | rfl | rfl | hc
    · exact b64Char_url _
    · exact b64Char_url _
    · exact b64Char_url _
    · exact b64Char_url _
    · exact b64Encode_chars rest c hc

/-- C9 (spec-modelled): the safety-tag derive operation is
deterministic, and its output is the digest of the `(prefix,
destination)` pair encoded in the URL-safe padding-free base64 alphabet
and truncated to a fixed 32-character length. -/
theorem c9_derive_deterministic (pfx dst pfx' dst' : ByteStr) :
    (pfx = pfx' → dst = dst' → derive pfx dst = derive pfx' dst') ∧
    derive pfx dst = (b64Encode (digest (pfx ++ dst))).take 32 ∧
    (derive pfx dst).length = 32 ∧
    ∀ c ∈ derive pfx dst, isB64UrlChar c = true := by
  refine ⟨fun h1 h2 => by rw [h1, h2], rfl, ?_, ?_⟩
  · have h1 : (digest (pfx ++ dst)).length = 32 := digest_length _
    have h2 := b64Encode_length_ge (digest (pfx ++ dst))
    simp only [derive, List.length_take]
    omega
  · intro c hc
    exact b64Encode_chars _ c ((List.take_sublist _ _).subset hc)

theorem c9_derive_deterministic_witness :
    derive [97] [98] = derive [97] [98] ∧ (derive [97] [98]).length = 32 :=
  ⟨(c9_derive_deterministic [97] [98] [97] [98]).1 rfl rfl,
    (c9_derive_deterministic [97] [98] [97] [98]).2.2.1⟩

theorem utf8ValidAux_append : ∀ (p u : ByteStr) (k : Nat),
    utf8ValidAux k p = true → utf8ValidAux k (p ++ u) = true →
    utf8Valid u = true
  | [], u, 0, _, hu => hu
  | [], _, _ + 1, hp, _ => Bool.noConfusion hp
  | b :: p, u, 0, hp, hu => by
    simp only [utf8ValidAux, List.cons_append] at hp hu
    by_cases hc : chunkLen b = 0
    · rw [if_pos hc] at hp
      exact Bool.noConfusion hp
    · rw [if_neg hc] at hp hu
      exact utf8ValidAux_append p u (chunkLen b - 1) hp hu
  | b :: p, u, k + 1, hp, hu => by
    simp only [utf8ValidAux, List.cons_append, Bool.and_eq_true] at hp hu
    exact utf8ValidAux_append p u k hp.2 hu.2

theorem utf8Valid_head_not_cont {b : Nat} {rest : ByteStr}
    (h : utf8Valid (b :: rest) = true) : isCont b = false := by
  have hc : chunkLen b ≠ 0 := by
    intro hc0
    simp only [utf8Valid, utf8ValidAux] at h
    rw [if_pos hc0] at h
    exact Bool.noConfusion h
  rw [← Bool.not_eq_true]
  intro hcont
  have hrange : 128 ≤ b ∧ b < 192 := by simpa [isCont] using hcont
  apply hc
  simp only [chunkLen]
  rw [if_neg (by omega), if_pos (by omega)]

/-- C10: when the prefix passes the `starts_with` test on a page's path
(the `list_pages` postcondition) and both strings are well-formed UTF-8
byte sequences, the slice `&p.path[prefix.len()..]` taken by
`move_pages` is in bounds and on a character boundary, so the
destination-path computation never panics. -/
theorem c10_slice_safe (pfx dst : ByteStr) (p : PageListItem)
    (hpv : utf8Valid pfx = true) (htv : utf8Valid p.path = true)
    (hpre : pfx.isPrefixOf p.path = true) :
    pfx.length ≤ p.path.length ∧
    isCharBoundary p.path pfx.length = true ∧
    movedPathChecked pfx dst p = some (movedPath pfx dst p) := by
  obtain ⟨u, hu⟩ := (isPrefixOf_iff_append _ _).mp hpre
  have hlen : pfx.length ≤ p.path.length := by
    rw [hu, List.length_append]
    omega
  have hdrop : p.path.drop pfx.length = u := by rw [hu, List.drop_left]
  have huv : utf8Valid u = true := by
    apply utf8ValidAux_append pfx u 0 hpv
    rw [← hu]
    exact htv
  have hb : isCharBoundary p.path pfx.length = true := by
    simp only [isCharBoundary, hdrop]
    cases u with
    | nil => simp [hu]
    | cons b rest => simp [utf8Valid_head_not_cont huv]
  refine ⟨hlen, hb, ?_⟩
  simp [movedPathChecked, byteSlice, hb, movedPath, hdrop]

theorem c10_slice_safe_witness :
    utf8Valid [195, 169] = true ∧
    utf8Valid (PageListItem.mk 1 [195, 169, 97] none none).path = true ∧
    ([195, 169] : ByteStr).isPrefixOf
      (PageListItem.mk 1 [195, 169, 97] none none).path = true ∧
    (([195, 169] : ByteStr).length ≤
        (PageListItem.mk 1 [195, 169, 97] none none).path.length ∧
      isCharBoundary (PageListItem.mk 1 [195, 169, 97] none none).path
        ([195, 169] : ByteStr).length = true ∧
      movedPathChecked [195, 169] [100] (PageListItem.mk 1 [195, 169, 97] none none) =
        some (movedPath [195, 169] [100]
          (PageListItem.mk 1 [195, 169, 97] none none))) :=
  ⟨by decide, by decide, by decide,
    c10_slice_safe [195, 169] [100] (PageListItem.mk 1 [195, 169, 97] none none)
      (by decide) (by decide) (by decide)⟩
